import Mathlib

/-!
Verification of the git2llm repository (perbu/git2llm).

This file is a shallow embedding of the program's core: the exclusion
decision engine (`isExcluded` with its four pattern forms and the
`filepath.Match` glob used by plain patterns), the content classifier
(`isForbiddenFile`), the ignore-file loader (`loadExclusionPatterns`),
the tree renderer (`generateTree`) and the per-file emitter
(`processFile`), together with theorems settling the specification's
claims about them.

Modelling conventions: Go strings are embedded as their character
sequences (`GoStr`, i.e. `List Char`; byte-wise Go operations agree with
character-wise ones on valid UTF-8 data, and all inputs of interest are
ASCII); raw file bytes are `List Nat`; the file system seen by the tree
renderer and walker is an inductive tree of named entries; the output
stream is the value returned instead of a writer side effect.
`os.PathSeparator` is `'/'` (the tool targets Unix paths).
-/

namespace Git2LLM

/-- Go strings, embedded as their character sequences. -/
abbrev GoStr := List Char

/-- Turns a Lean string literal into an embedded Go string. -/
def str (x : String) : GoStr := x.toList

/-- strings.HasPrefix: does `l` begin with `p`? -/
def goStartsWith (l p : GoStr) : Bool :=
  match p, l with
  | [], _ => true
  | _ :: _, [] => false
  | a :: p', b :: l' => a == b && goStartsWith l' p'

/-- strings.HasSuffix: does `l` end with `p`? -/
def goEndsWith (l p : GoStr) : Bool := goStartsWith l.reverse p.reverse

/-- strings.Split with a one-character separator. -/
def goSplit (l : GoStr) (sep : Char) : List GoStr :=
  match l with
  | [] => [[]]
  | c :: rest =>
    match goSplit rest sep with
    | [] => [[]]
    | g :: gs => if c = sep then [] :: g :: gs else (c :: g) :: gs

/-- strings.ToLower (ASCII range, as exercised by the program's inputs). -/
def goToLower (l : GoStr) : GoStr := l.map Char.toLower

/-- Go's byte-wise `<` on strings (code-point order coincides on UTF-8). -/
def strLt : GoStr → GoStr → Bool
  | _, [] => false
  | [], _ :: _ => true
  | a :: as, b :: bs => decide (a < b) || (a == b && strLt as bs)

/-- os.PathSeparator on the target platform. -/
def pathSep : Char := '/'

/-! ### filepath.Match (Go standard library), as called by `isExcluded`

`scanChunk` is embedded through `starCount` (how many leading `*` are
stripped) and `scanLen` (how many characters the following chunk spans,
tracking the in-character-class and escaped states), so that chunk and
remainder are `take`/`drop` of the pattern. `matchChunkAux` is the
`matchChunk` loop with its `failed` flag; `parseClass`/`parseAfterLo`
are the character-class range loop with `getEsc` inlined, returning the
number of pattern characters consumed. Runes are characters here. -/

/-- Number of leading `*` characters of a pattern (scanChunk's star loop). -/
def starCount : GoStr → Nat
  | [] => 0
  | c :: rest => if c = '*' then 1 + starCount rest else 0

/-- Length of the chunk scanChunk cuts off after star stripping:
scans until an unbracketed `*`, skipping the character after `\`. -/
def scanLen : GoStr → Bool → Bool → Nat
  | [], _, _ => 0
  | c :: rest, inrange, skipNext =>
    if skipNext then 1 + scanLen rest inrange false
    else if c = '\\' then 1 + scanLen rest inrange true
    else if c = '[' then 1 + scanLen rest true false
    else if c = ']' then 1 + scanLen rest false false
    else if c = '*' then (if inrange then 1 + scanLen rest inrange false else 0)
    else 1 + scanLen rest inrange false

mutual
/-- The character-class loop of matchChunk: parses `lo`/`lo-hi` ranges
(`getEsc` inlined, `none` = ErrBadPattern), accumulating whether rune `r`
matched, and returns how many pattern characters were consumed up to and
including the closing `]`. -/
def parseClass (r : Char) (acc : Bool) (nrange : Nat) (l : GoStr) : Option (Bool × Nat) :=
  match l with
  | [] => none
  | ']' :: _ => if 0 < nrange then some (acc, 1) else none
  | '-' :: _ => none
  | '\\' :: rest =>
    match rest with
    | [] => none
    | lo :: rest1 => (parseAfterLo r acc nrange lo rest1).map (fun p => (p.1, 2 + p.2))
  | lo :: rest1 => (parseAfterLo r acc nrange lo rest1).map (fun p => (p.1, 1 + p.2))
termination_by 2 * l.length + 1

/-- Continuation of `parseClass` after the low end of a range was read:
`getEsc` requires a nonempty remainder, then an optional `-hi` part. -/
def parseAfterLo (r : Char) (acc : Bool) (nrange : Nat) (lo : Char) (l : GoStr) : Option (Bool × Nat) :=
  match l with
  | [] => none
  | '-' :: rest2 =>
    match rest2 with
    | [] => none
    | '-' :: _ => none
    | ']' :: _ => none
    | '\\' :: rest2' =>
      match rest2' with
      | [] => none
      | hi :: rest3 =>
        if rest3.isEmpty then none
        else (parseClass r (acc || (decide (lo ≤ r) && decide (r ≤ hi))) (nrange + 1) rest3).map
          (fun p => (p.1, 3 + p.2))
    | hi :: rest3 =>
      if rest3.isEmpty then none
      else (parseClass r (acc || (decide (lo ≤ r) && decide (r ≤ hi))) (nrange + 1) rest3).map
        (fun p => (p.1, 2 + p.2))
  | c :: rest1' =>
    (parseClass r (acc || (decide (lo ≤ r) && decide (r ≤ lo))) (nrange + 1) (c :: rest1')).map
      (fun p => (p.1, 0 + p.2))
termination_by 2 * l.length + 2
end

/-- Result of matching one chunk against a name suffix: the remaining
name on success, a mismatch, or a malformed pattern (ErrBadPattern). -/
inductive ChunkRes where
  | ok (rest : GoStr)
  | failed
  | badPattern
deriving DecidableEq

/-- Strips a leading `^` (class negation) from the pattern remainder. -/
def stripCaret : GoStr → Bool × GoStr
  | '^' :: rest1 => (true, rest1)
  | rest => (false, rest)

/-- The matchChunk loop: matches the chunk at the beginning of `sArg`,
carrying Go's `failed` flag (parsing continues after a mismatch so
malformed patterns are still reported). -/
def matchChunkAux (chunk sArg : GoStr) (failedArg : Bool) : ChunkRes :=
  match chunk with
  | [] => if failedArg then .failed else .ok sArg
  | c :: rest =>
    let failed := failedArg || sArg.isEmpty
    if c = '[' then
      let r : Char := if failed then Char.ofNat 0 else sArg.headD (Char.ofNat 0)
      let s' : GoStr := if failed then sArg else sArg.tail
      match parseClass r false 0 (stripCaret rest).2 with
      | none => .badPattern
      | some (m, consumed) =>
        matchChunkAux ((stripCaret rest).2.drop consumed) s' (failed || (m == (stripCaret rest).1))
    else if c = '?' then
      if failed then matchChunkAux rest sArg true
      else
        match sArg with
        | [] => matchChunkAux rest [] true
        | x :: s' => matchChunkAux rest s' (x == pathSep)
    else if c = '\\' then
      match rest with
      | [] => .badPattern
      | e :: rest2 =>
        if failed then matchChunkAux rest2 sArg true
        else
          match sArg with
          | [] => matchChunkAux rest2 [] true
          | x :: s' => matchChunkAux rest2 s' (!(e == x))
    else
      if failed then matchChunkAux rest sArg true
      else
        match sArg with
        | [] => matchChunkAux rest [] true
        | x :: s' => matchChunkAux rest s' (!(c == x))
termination_by chunk.length
decreasing_by
  all_goals simp_all [List.length_drop]
  all_goals try omega
  · have h1 : (stripCaret rest).2.length ≤ rest.length := by
      unfold stripCaret; split <;> simp
    omega

/-- Result of the star-shift loop of Match. -/
inductive TryRes where
  | shifted (t : GoStr)
  | noMatch
  | badPattern

/-- The inner loop of Match after a star: retries the chunk at each later
position of the name, stopping at a separator. -/
def tryShifts (chunk patRest : GoStr) : GoStr → TryRes
  | [] => .noMatch
  | x :: restName =>
    if x = pathSep then .noMatch
    else
      match matchChunkAux chunk restName false with
      | .ok t =>
        if patRest.isEmpty && !t.isEmpty then tryShifts chunk patRest restName
        else .shifted t
      | .failed => tryShifts chunk patRest restName
      | .badPattern => .badPattern

/-- filepath.Match: `matched` result with errors collapsed to `false`,
exactly as `isExcluded` consumes it (`matched, _ := filepath.Match(...)`). -/
def goMatch (pat nm : GoStr) : Bool :=
  if hpat : pat.isEmpty then nm.isEmpty
  else
    let k := starCount pat
    let star := k != 0
    let rest0 := pat.drop k
    let i := scanLen rest0 false false
    let chunk := rest0.take i
    let patRest := rest0.drop i
    if star && chunk.isEmpty then !(nm.contains pathSep)
    else
      match matchChunkAux chunk nm false with
      | .ok t =>
        if t.isEmpty || !patRest.isEmpty then goMatch patRest t
        else if star then
          match tryShifts chunk patRest nm with
          | .shifted t2 => goMatch patRest t2
          | _ => false
        else false
      | .badPattern => false
      | .failed =>
        if star then
          match tryShifts chunk patRest nm with
          | .shifted t2 => goMatch patRest t2
          | _ => false
        else false
termination_by pat.length
decreasing_by
  all_goals
    simp only [List.length_drop]
    have hne : pat ≠ [] := by simpa using hpat
    obtain ⟨c, pr, rfl⟩ : ∃ c pr, pat = c :: pr := by
      cases pat with
      | nil => exact absurd rfl hne
      | cons c pr => exact ⟨c, pr, rfl⟩
    simp only [List.length_cons]
    by_cases hc : c = '*'
    · have h1 : 1 ≤ starCount (c :: pr) := by
        unfold starCount; simp [hc]
      omega
    · have hk : starCount (c :: pr) = 0 := by
        unfold starCount; simp [hc]
      have h1 : 1 ≤ scanLen (List.drop (starCount (c :: pr)) (c :: pr)) false false := by
        rw [hk]
        simp only [List.drop_zero]
        unfold scanLen
        split_ifs with e1 e2 e3 e4 e5 <;> simp_all
      omega

/-! ### isExcluded (src/git2llm.go:207-235)

The exclusion pattern map is modelled as the list of patterns in the
order the map iteration yields them; `isExcluded` returns true exactly
when some pattern matches (C5 proves the order is irrelevant). -/

/-- One pattern's test against a path: the four branches of the loop body
of `isExcluded` (anchored directory, directory, anchored, plain glob). -/
def matchesPattern (pat path : GoStr) : Bool :=
  if goStartsWith pat (str "/") && goEndsWith pat (str "/") then
    goStartsWith path (pat.drop 1) || path == (pat.drop 1).dropLast
  else if goEndsWith pat (str "/") then
    goStartsWith path pat || path == pat.dropLast
  else if goStartsWith pat (str "/") then
    path == pat.drop 1 || goStartsWith path (pat.drop 1 ++ [pathSep])
  else
    goMatch pat path || (goSplit path pathSep).any (fun part => goMatch pat part)

/-- isExcluded of the revision under src/: true iff any pattern matches. -/
def isExcluded (path : GoStr) (patterns : List GoStr) : Bool :=
  patterns.any (fun pat => matchesPattern pat path)

/-- defaultPatterns (src/git2llm.go:194-205). -/
def defaultPatterns : List GoStr :=
  [str ".git", str ".svn", str ".idea", str ".vscode", str "go.sum"]

/-- Modelled from the spec: the dotfile test of the latest revision's
`isExcluded`, whose source is not under src/ (only the README and the
integration tests reference it). Spec: dotfiles/dotfolders are names
starting with `.`, and a path with any such segment is excluded. -/
def hasDotSegment (path : GoStr) : Bool :=
  (goSplit path pathSep).any (fun seg => goStartsWith seg (str "."))

/-- Modelled from the spec: `isExcluded` of the latest revision, whose
source is not under src/. Spec: dotfiles/dotfolders are "excluded
unconditionally by default ... a built-in rule, not a pattern, applied
before pattern matching"; otherwise the pattern rules decide. -/
def isExcludedLatest (path : GoStr) (patterns : List GoStr) : Bool :=
  hasDotSegment path || isExcluded path patterns

/-! ### loadExclusionPatterns (src/git2llm.go:165-192)

The filesystem interaction is the outcome of opening and line-scanning
the ignore file; the pattern map is a `Finset String`. -/

/-- Outcome of `fs.Open` plus the line scan of the ignore file. -/
inductive IgnoreFileResult where
  | notExist
  | openError (msg : String)
  | readError (msg : String)
  | ok (lines : List String)

/-- The default pattern map (defaultPatterns, as a set of strings). -/
def defaultPatternsSet : Finset String :=
  {".git", ".svn", ".idea", ".vscode", "go.sum"}

/-- loadExclusionPatterns: a missing ignore file yields the defaults; any
other open failure (or a scanner failure) is an error and produces no
pattern set; otherwise each line is trimmed and, unless blank or
`#`-prefixed, inserted into the default map. -/
def loadExclusionPatterns (r : IgnoreFileResult) : Except String (Finset String) :=
  match r with
  | .notExist => .ok defaultPatternsSet
  | .openError msg => .error ("error opening exclusion file: " ++ msg)
  | .readError msg => .error ("error reading exclusion file: " ++ msg)
  | .ok lines =>
      .ok (lines.foldl
        (fun acc line =>
          if line.trim ≠ "" && !line.trim.startsWith "#" then insert line.trim acc
          else acc)
        defaultPatternsSet)

/-! ### isForbiddenFile (src/git2llm.go:336-360) and processFile (428-516)

The classifier reads the leading chunk of the file (at most 16384
bytes); bytes are naturals. The 16 KiB buffer starts zeroed, so its
tail beyond the bytes actually read stays zero, exactly as in the
source; the zero-byte loop runs over the `n` bytes read, the marker
search over the whole buffer. -/

/-- Does the byte sequence `l` begin with `sub`? -/
def startsSeq (l sub : List Nat) : Bool :=
  match sub, l with
  | [], _ => true
  | _ :: _, [] => false
  | b :: sub', a :: l' => a == b && startsSeq l' sub'

/-- bytes.Contains / the substring test: does `l` contain `sub` as a
contiguous run? -/
def containsSeq (l sub : List Nat) : Bool :=
  startsSeq l sub ||
    match l with
    | [] => false
    | _ :: rest => containsSeq rest sub

/-- The bytes of the secretKeyMarker constant "PRIVATE KEY". -/
def secretKeyMarker : List Nat := (str "PRIVATE KEY").map Char.toNat

/-- isForbiddenFile on the chunk of bytes the initial read returned
(end-of-file on that read is not a failure, so an empty file yields the
empty chunk): zero byte among the bytes read means "binary", else the
marker anywhere in the 16384-byte buffer means "private key", else the
empty classification (plain). -/
def isForbiddenFile (chunk : List Nat) : String :=
  let n := chunk.length
  let buffer := chunk ++ List.replicate (16384 - n) 0
  if (buffer.take n).any (fun b => b == 0) then "binary"
  else if containsSeq buffer secretKeyMarker then "private key"
  else ""

/-- Outcome of `fs.Open` plus the initial `Read` during classification. -/
inductive ClassifyRead where
  | openErr (msg : String)
  | readErr (msg : String)
  | ok (chunk : List Nat)

/-- isForbiddenFile including its error paths: an open failure or a read
failure other than end-of-file yields the corresponding error
classification instead of a content-based one. -/
def isForbiddenFileOutcome : ClassifyRead → String
  | .openErr msg => "error(open): " ++ msg
  | .readErr msg => "error(read): " ++ msg
  | .ok chunk => isForbiddenFile chunk

/-- The 50-dash separator line written between block header and body. -/
def dashes50 : String := String.mk (List.replicate 50 '-')

/-- processFile: what reaches the primary output writer for one file,
given the symlink check, the classification `reason`, and the outcome
of reading the file's content; the second component is the error the
call returns (`none` = the scan continues normally). Symlinked,
forbidden and unreadable files get annotated skip blocks; only a plain
readable file's bytes are written. -/
def processFile (isLink : Bool) (reason : String) (relPath : String)
    (readRes : Except String String) : String × Option String :=
  if isLink then
    ("File: " ++ relPath ++ " (Symlink - skipped content)\n" ++ dashes50 ++ "\n"
      ++ "Content of " ++ relPath ++ ": (Skipped - Symlink)\n\n\n", none)
  else if reason ≠ "" then
    ("File: " ++ relPath ++ " (Binary - skipped content)\n" ++ dashes50 ++ "\n"
      ++ "Content of " ++ relPath ++ ": (Skipped - Binary File)\n\n\n", none)
  else
    match readRes with
    | .error e =>
      ("File: " ++ relPath ++ "\n" ++ dashes50 ++ "\n"
        ++ "Error reading file: " ++ e ++ ". Content skipped.\n",
       some ("error reading file " ++ relPath ++ ": " ++ e))
    | .ok content =>
      ("File: " ++ relPath ++ "\n" ++ dashes50 ++ "\n"
        ++ "Content of " ++ relPath ++ ":\n" ++ content ++ "\n\n", none)

/-! ### The file-system tree and generateTree (src/git2llm.go:237-325)

`fs.ReadDir` is modelled by an inductive tree of named entries. Each
level is sorted exactly as the source's `sort.Slice` comparator orders
it (directories first, then case-insensitively by name): `sortEntries`
produces a permutation ordered by the negation of that comparator,
which is what Go's sort guarantees. The renderer returns the list of
lines it writes (each `Fprintf` call emits one line). -/

/-- A directory entry: a file, or a directory with its children. -/
inductive FsEntry where
  | file (nm : GoStr)
  | dir (nm : GoStr) (children : List FsEntry)

/-- entry.Name(). -/
def FsEntry.nameOf : FsEntry → GoStr
  | .file nm => nm
  | .dir nm _ => nm

/-- entry.IsDir(). -/
def FsEntry.isDir : FsEntry → Bool
  | .file _ => false
  | .dir _ _ => true

mutual
/-- Number of entries in a subtree (a termination measure). -/
def sizeE : FsEntry → Nat
  | .file _ => 1
  | .dir _ cs => 1 + sizeList cs

/-- Number of entries in a forest (a termination measure). -/
def sizeList : List FsEntry → Nat
  | [] => 0
  | e :: es => sizeE e + sizeList es
end

/-- The sort.Slice comparator of generateTree: directories first, then
case-insensitive alphabetical by name. -/
def entryLt (a b : FsEntry) : Bool :=
  if a.isDir != b.isDir then a.isDir
  else strLt (goToLower a.nameOf) (goToLower b.nameOf)

/-- The order a slice sorted with `entryLt` satisfies: a precedes b
exactly when b is not strictly below a. -/
def entryR (a b : FsEntry) : Prop := entryLt b a = false

instance : DecidableRel entryR := fun a b => by unfold entryR; infer_instance

/-- The sorted entry slice of one directory level. -/
def sortEntries (es : List FsEntry) : List FsEntry := List.insertionSort entryR es

/-- filepath.Rel(startPath, filepath.Join(dirPath, name)): the entry's
path relative to the scan root. -/
def joinRel (relDir nm : GoStr) : GoStr :=
  if relDir.isEmpty then nm else relDir ++ pathSep :: nm

/-- Is the entry skipped by generateTree: excluded by pattern, or a file
failing an active file-type suffix filter (directories are never
suffix-filtered)? -/
def skipEntry (patterns fileTypes : List GoStr) (relDir : GoStr) (e : FsEntry) : Bool :=
  isExcluded (joinRel relDir e.nameOf) patterns ||
    (!e.isDir && !fileTypes.isEmpty
      && !(fileTypes.any (fun ext => goEndsWith e.nameOf ext)))

/-- The connector for the entry at position `i` of a level of `n` sorted
entries. -/
def connector (i n : Nat) : GoStr :=
  if i = n - 1 then str "└── " else str "├── "

/-- The continuation prefix passed to the children of the entry at
position `i` of a level of `n` sorted entries. -/
def contPrefix (i n : Nat) : GoStr :=
  if i = n - 1 then str "    " else str "│   "

/-- The entry's label on its own line (directories get a trailing slash). -/
def entryLabel : FsEntry → GoStr
  | .file nm => nm
  | .dir nm _ => nm ++ ['/']

mutual
/-- The lines a rendered entry contributes below its own line: none for a
file, the recursively rendered level for a directory. -/
def childLines (patterns fileTypes : List GoStr) (relDir pfx : GoStr) (i n : Nat) :
    FsEntry → List GoStr
  | .file _ => []
  | .dir nm cs =>
    genEntries patterns fileTypes (joinRel relDir nm) (pfx ++ contPrefix i n)
      (sortEntries cs) 0 (sortEntries cs).length
termination_by e => 3 * sizeE e
decreasing_by
  rename_i cs
  have hp : List.Perm (sortEntries cs) cs := List.perm_insertionSort entryR cs
  have hall : ∀ l1 l2 : List FsEntry, List.Perm l1 l2 → sizeList l1 = sizeList l2 := by
    intro l1 l2 h
    induction h with
    | nil => rfl
    | cons x _ ih => simp [sizeList, ih]
    | swap x y l => simp [sizeList]; omega
    | trans _ _ ih1 ih2 => omega
  have hs := hall _ _ hp
  simp only [sizeE]
  omega

/-- The lines one entry of a sorted level contributes: nothing when it is
skipped, else its own line followed by its children's lines. -/
def entryBlock (patterns fileTypes : List GoStr) (relDir pfx : GoStr) (i n : Nat)
    (e : FsEntry) : List GoStr :=
  if skipEntry patterns fileTypes relDir e then []
  else (pfx ++ connector i n ++ entryLabel e) :: childLines patterns fileTypes relDir pfx i n e
termination_by 3 * sizeE e + 1
decreasing_by omega

/-- The loop of generateTree over the sorted entries of one level,
carrying the running index `i` and the level's entry count `n`. -/
def genEntries (patterns fileTypes : List GoStr) (relDir pfx : GoStr) :
    List FsEntry → Nat → Nat → List GoStr
  | [], _, _ => []
  | e :: rest, i, n =>
    entryBlock patterns fileTypes relDir pfx i n e
      ++ genEntries patterns fileTypes relDir pfx rest (i + 1) n
termination_by rem i n => 3 * sizeList rem + 2
decreasing_by
  all_goals
    have h1 : 1 ≤ sizeE e := by cases e <;> simp [sizeE] <;> omega
    simp only [sizeList]
    omega
end

/-- generateTree from the scan root: the rendered lines of the whole tree
(without the root marker line). -/
def generateTree (patterns fileTypes : List GoStr) (entries : List FsEntry) : List GoStr :=
  genEntries patterns fileTypes [] [] (sortEntries entries) 0 (sortEntries entries).length

/-- generateDirectoryStructureString: the root marker line followed by the
rendered tree. -/
def generateDirectoryStructureString (patterns fileTypes : List GoStr)
    (entries : List FsEntry) : List GoStr :=
  str "/ " :: generateTree patterns fileTypes entries

/-- Modelled from the spec: ScanRepository's content traversal with the
latest revision's recursion flag, whose source is not under src/ (the
README documents `-R`, and the integration tests pass the flag as the
extra `NewGit2LLM` argument). Spec: visit non-directory entries,
skipping pattern-excluded and suffix-filtered ones; "If recursion is
disabled, only entries directly in the root are visited — not
subdirectories at any depth." Returns the relative paths of the files
whose blocks are emitted. -/
def walkFiles (noRecurse : Bool) (patterns fileTypes : List GoStr) (relDir : GoStr) :
    List FsEntry → List GoStr
  | [] => []
  | .file nm :: rest =>
    (if isExcludedLatest (joinRel relDir nm) patterns then []
     else if fileTypes.isEmpty then [joinRel relDir nm]
     else if fileTypes.any (fun ext => goEndsWith nm ext) then [joinRel relDir nm]
     else [])
    ++ walkFiles noRecurse patterns fileTypes relDir rest
  | .dir nm cs :: rest =>
    (if noRecurse then [] else walkFiles noRecurse patterns fileTypes (joinRel relDir nm) cs)
    ++ walkFiles noRecurse patterns fileTypes relDir rest
termination_by es => sizeList es
decreasing_by all_goals simp [sizeList, sizeE] <;> omega

/-! ## Theorems -/

/-- C7: with the single pattern `temp/`, `isExcluded` accepts
`temp/file.txt` and `temp` itself and rejects `temporary/file.txt` (a
slash-terminated pattern matches the bare name or any path under it). -/
theorem c7_slash_pattern :
    isExcluded (str "temp/file.txt") [str "temp/"] = true ∧
    isExcluded (str "temp") [str "temp/"] = true ∧
    isExcluded (str "temporary/file.txt") [str "temp/"] = false := by
  decide

/-- C5: `isExcluded` is a function of the path and the pattern set alone,
and its value is invariant under any permutation of the order in which
the patterns are iterated. -/
theorem c5_isExcluded_perm_invariant (path : GoStr) (l₁ l₂ : List GoStr)
    (h : l₁.Perm l₂) : isExcluded path l₁ = isExcluded path l₂ := by
  have hiff : (isExcluded path l₁ = true) ↔ (isExcluded path l₂ = true) := by
    simp only [isExcluded, List.any_eq_true]
    constructor
    · rintro ⟨p, hp, hm⟩; exact ⟨p, h.mem_iff.mp hp, hm⟩
    · rintro ⟨p, hp, hm⟩; exact ⟨p, h.mem_iff.mpr hp, hm⟩
  cases h1 : isExcluded path l₁ <;> cases h2 : isExcluded path l₂ <;>
    simp_all

/-- C5 witness: the two-pattern set in both iteration orders, on a
concrete path. -/
theorem c5_witness :
    List.Perm [str "temp/", str "vendor"] [str "vendor", str "temp/"] ∧
    isExcluded (str "x.go") [str "temp/", str "vendor"]
      = isExcluded (str "x.go") [str "vendor", str "temp/"] :=
  ⟨List.Perm.swap (str "vendor") (str "temp/") [],
   c5_isExcluded_perm_invariant (str "x.go") _ _
     (List.Perm.swap (str "vendor") (str "temp/") [])⟩

/-- C6: exclusion is monotone in the pattern set — a path excluded under
`l₁` stays excluded under any superset `l₂` (there is no negation
syntax, so a pattern can only add matches). -/
theorem c6_isExcluded_monotone (path : GoStr) (l₁ l₂ : List GoStr)
    (hsub : l₁ ⊆ l₂) (h : isExcluded path l₁ = true) :
    isExcluded path l₂ = true := by
  simp only [isExcluded, List.any_eq_true] at h ⊢
  obtain ⟨p, hp, hm⟩ := h
  exact ⟨p, hsub hp, hm⟩

/-- C6 witness: `temp/file.txt` is excluded by `[temp/]` and stays
excluded after `vendor` is added. -/
theorem c6_witness :
    isExcluded (str "temp/file.txt") [str "temp/", str "vendor"] = true :=
  c6_isExcluded_monotone (str "temp/file.txt") [str "temp/"] _
    (by intro x hx; simp only [List.mem_cons] at hx ⊢; tauto)
    (by decide)

/-- C1 (spec-modelled): in the latest revision, a relative path with any
segment starting with `.` is excluded regardless of the pattern set,
by the built-in dotfile rule applied before pattern matching. -/
theorem c1_dotfile_always_excluded (path : GoStr) (patterns : List GoStr)
    (h : hasDotSegment path = true) :
    isExcludedLatest path patterns = true := by
  simp [isExcludedLatest, h]

/-- C1 witness: `.env` has a dot segment and is excluded under a pattern
set that never mentions it. -/
theorem c1_witness :
    hasDotSegment (str ".env") = true ∧
    isExcludedLatest (str ".env") [str "vendor"] = true :=
  ⟨by decide, c1_dotfile_always_excluded (str ".env") [str "vendor"] (by decide)⟩

/-- Unfolding of the substring search one position at a time. -/
theorem containsSeq_cons (a : Nat) (l sub : List Nat) :
    containsSeq (a :: l) sub = (startsSeq (a :: l) sub || containsSeq l sub) := rfl

/-- A prefix match cannot start inside the zero padding nor cross into
it when the sought sequence has no zero byte. -/
theorem startsSeq_append_zeros (k : Nat) :
    ∀ (sub l : List Nat), (∀ b ∈ sub, b ≠ 0) →
      startsSeq (l ++ List.replicate k 0) sub = startsSeq l sub := by
  intro sub
  induction sub with
  | nil => intro l _; simp [startsSeq]
  | cons b sub' ih =>
    intro l hnz
    cases l with
    | nil =>
      cases k with
      | zero => simp
      | succ k' =>
        have hb : b ≠ 0 := hnz b (by simp)
        have h00 : (0 == b) = false := by
          simpa using Ne.symm hb
        simp [List.replicate_succ, startsSeq, h00]
    | cons a l' =>
      simp only [List.cons_append, startsSeq, List.append_eq]
      rw [ih l' (fun x hx => hnz x (by simp [hx]))]

/-- The marker never occurs inside a run of zero bytes. -/
theorem containsSeq_zeros (sub : List Nat) (hne : sub ≠ [])
    (hnz : ∀ b ∈ sub, b ≠ 0) :
    ∀ k', containsSeq (List.replicate k' 0) sub = false := by
  obtain ⟨b, sub', rfl⟩ : ∃ b s', sub = b :: s' := by
    cases sub with
    | nil => exact absurd rfl hne
    | cons b s' => exact ⟨b, s', rfl⟩
  have h00 : (0 == b) = false := by
    simpa using Ne.symm (hnz b (by simp))
  intro k'
  induction k' with
  | zero => simp [containsSeq, startsSeq]
  | succ k'' ih =>
    simp [List.replicate_succ, containsSeq_cons, startsSeq, h00, ih]

/-- The marker search over the zero-padded buffer agrees with the search
over the bytes actually read, because the marker is nonempty and free
of zero bytes. -/
theorem containsSeq_append_zeros (k : Nat) (sub : List Nat)
    (hne : sub ≠ []) (hnz : ∀ b ∈ sub, b ≠ 0) :
    ∀ l : List Nat, containsSeq (l ++ List.replicate k 0) sub = containsSeq l sub := by
  intro l
  induction l with
  | nil =>
    rw [List.nil_append, containsSeq_zeros sub hne hnz k]
    obtain ⟨b, sub', rfl⟩ : ∃ b s', sub = b :: s' := by
      cases sub with
      | nil => exact absurd rfl hne
      | cons b s' => exact ⟨b, s', rfl⟩
    simp [containsSeq, startsSeq]
  | cons a l' ih =>
    rw [List.cons_append, containsSeq_cons, containsSeq_cons, ih]
    have hs := startsSeq_append_zeros k sub (a :: l') hnz
    rw [List.cons_append] at hs
    rw [hs]

/-- C2: on the chunk the initial read returned (at most the 16 KiB
window), the classifier answers `binary` exactly when a zero byte is
among the bytes read, else `private key` exactly when the chunk
contains the literal marker `PRIVATE KEY`, and the empty (plain)
classification otherwise — the zero-byte check takes precedence, and
the empty chunk of an empty file classifies as plain. -/
theorem c2_isForbiddenFile_spec (chunk : List Nat) (h : chunk.length ≤ 16384) :
    isForbiddenFile chunk =
      (if 0 ∈ chunk then "binary"
       else if containsSeq chunk secretKeyMarker = true then "private key"
       else "") := by
  have hmne : secretKeyMarker ≠ [] := by decide
  have hmnz : ∀ b ∈ secretKeyMarker, b ≠ 0 := by decide
  unfold isForbiddenFile
  show (if ((chunk ++ List.replicate (16384 - chunk.length) 0).take chunk.length).any
        (fun b => b == 0) = true then "binary"
      else if containsSeq (chunk ++ List.replicate (16384 - chunk.length) 0)
        secretKeyMarker = true then "private key"
      else "") = _
  rw [List.take_left chunk _]
  rw [containsSeq_append_zeros _ _ hmne hmnz chunk]
  by_cases h0 : 0 ∈ chunk
  · have hany : chunk.any (fun b => b == 0) = true := by
      simp only [List.any_eq_true, beq_iff_eq]
      exact ⟨0, h0, rfl⟩
    simp [hany, h0]
  · have hany : chunk.any (fun b => b == 0) = false := by
      cases hv : chunk.any (fun b => b == 0)
      · rfl
      · exfalso
        rcases List.any_eq_true.mp hv with ⟨x, hx, hbx⟩
        exact h0 (by rw [← show x = 0 from by simpa using hbx]; exact hx)
    simp [hany, h0]

/-- C2 witness: the empty chunk of an empty file is within the window and
classifies as plain. -/
theorem c2_witness : ([] : List Nat).length ≤ 16384 ∧ isForbiddenFile [] = "" :=
  ⟨by decide, by rw [c2_isForbiddenFile_spec [] (by decide)]; rfl⟩

/-- Accumulating trimmed, non-blank, non-comment lines into the pattern
map is the union with the set of processed lines. -/
theorem foldl_insert_trimmed_lines :
    ∀ (lines : List String) (acc : Finset String),
      lines.foldl
        (fun acc line =>
          if line.trim ≠ "" && !line.trim.startsWith "#" then insert line.trim acc
          else acc) acc
      = acc ∪ (lines.filterMap (fun line =>
          if line.trim ≠ "" && !line.trim.startsWith "#" then some line.trim
          else none)).toFinset := by
  intro lines
  induction lines with
  | nil => intro acc; simp
  | cons line rest ih =>
    intro acc
    simp only [List.foldl_cons, List.filterMap_cons]
    by_cases hc : (decide (line.trim ≠ "") && !line.trim.startsWith "#") = true
    · rw [if_pos hc, if_pos hc, ih, List.toFinset_cons, Finset.union_insert,
        Finset.insert_union]
    · rw [if_neg hc, if_neg hc, ih]

/-- C9: loading the exclusion patterns yields exactly the defaults when
the ignore file is absent; fails (producing no pattern set) when the
file exists but cannot be opened; and otherwise trims each line, drops
blank and `#`-prefixed lines, and adds every remaining line to the
defaults. -/
theorem c9_loadExclusionPatterns_spec :
    loadExclusionPatterns .notExist = .ok defaultPatternsSet ∧
    (∀ msg, loadExclusionPatterns (.openError msg)
        = .error ("error opening exclusion file: " ++ msg)) ∧
    (∀ lines, loadExclusionPatterns (.ok lines)
        = .ok (defaultPatternsSet ∪ (lines.filterMap (fun line =>
            if line.trim ≠ "" && !line.trim.startsWith "#" then some line.trim
            else none)).toFinset)) :=
  ⟨rfl, fun _ => rfl, fun lines =>
    congrArg Except.ok (foldl_insert_trimmed_lines lines defaultPatternsSet)⟩

/-- C10: when opening or reading during classification fails (other than
end-of-file), the classification is a nonempty error string, so
`processFile` emits the annotated skip block — independent of the
file's content, whose bytes therefore never reach the output — and
returns no error, letting the run continue. -/
theorem c10_classify_error_skips (msg relPath : String)
    (readRes : Except String String) :
    isForbiddenFileOutcome (.openErr msg) ≠ "" ∧
    isForbiddenFileOutcome (.readErr msg) ≠ "" ∧
    processFile false (isForbiddenFileOutcome (.openErr msg)) relPath readRes
      = ("File: " ++ relPath ++ " (Binary - skipped content)\n" ++ dashes50 ++ "\n"
          ++ "Content of " ++ relPath ++ ": (Skipped - Binary File)\n\n\n", none) ∧
    processFile false (isForbiddenFileOutcome (.readErr msg)) relPath readRes
      = ("File: " ++ relPath ++ " (Binary - skipped content)\n" ++ dashes50 ++ "\n"
          ++ "Content of " ++ relPath ++ ": (Skipped - Binary File)\n\n\n", none) := by
  have hopen : isForbiddenFileOutcome (.openErr msg) ≠ "" := by
    unfold isForbiddenFileOutcome
    intro hcontra
    have hlen := congrArg String.length hcontra
    rw [String.length_append] at hlen
    have h13 : "error(open): ".length = 13 := rfl
    have h0 : "".length = 0 := rfl
    omega
  have hread : isForbiddenFileOutcome (.readErr msg) ≠ "" := by
    unfold isForbiddenFileOutcome
    intro hcontra
    have hlen := congrArg String.length hcontra
    rw [String.length_append] at hlen
    have h13 : "error(read): ".length = 13 := rfl
    have h0 : "".length = 0 := rfl
    omega
  refine ⟨hopen, hread, ?_, ?_⟩
  · unfold processFile
    simp [hopen]
  · unfold processFile
    simp [hread]

/-- Where a non-skipped entry of a level's list lands in the rendered
lines: its own line carries the connector for its position in that
list, and its children follow under the matching continuation prefix. -/
theorem genEntries_rendered_entry (patterns fileTypes : List GoStr) (relDir pfx : GoStr) :
    ∀ (rem : List FsEntry) (i n j : Nat) (e : FsEntry),
      rem[j]? = some e →
      skipEntry patterns fileTypes relDir e = false →
      ∃ pre suf, genEntries patterns fileTypes relDir pfx rem i n
        = pre ++ (pfx ++ connector (i + j) n ++ entryLabel e)
            :: (childLines patterns fileTypes relDir pfx (i + j) n e ++ suf) := by
  intro rem
  induction rem with
  | nil => intro i n j e hj _; simp at hj
  | cons e0 rest ih =>
    intro i n j e hj hskip
    cases j with
    | zero =>
      rw [List.getElem?_cons_zero] at hj
      injection hj with he
      subst he
      refine ⟨[], genEntries patterns fileTypes relDir pfx rest (i + 1) n, ?_⟩
      rw [genEntries, entryBlock, if_neg (by simp [hskip])]
      simp
    | succ j' =>
      rw [List.getElem?_cons_succ] at hj
      obtain ⟨pre, suf, hout⟩ := ih (i + 1) n j' e hj hskip
      refine ⟨entryBlock patterns fileTypes relDir pfx i n e0 ++ pre, suf, ?_⟩
      rw [genEntries, hout]
      simp only [List.append_assoc, List.cons_append]
      have : i + 1 + j' = i + (j' + 1) := by omega
      rw [this]

/-- C3 counterexample: with file-type filter `.go` and entries `a.go`,
`b.txt`, the sorted level is `[a.go, b.txt]`, `b.txt` is filtered out,
and the only (hence last) rendered sibling `a.go` is prefixed with
`├── `, not `└── ` — the connector follows the entry's position in the
full sorted listing, not its position among the rendered siblings. -/
theorem c3_counterexample :
    generateTree [] [str ".go"] [.file (str "b.txt"), .file (str "a.go")]
      = [str "├── " ++ str "a.go"] ∧
    goStartsWith (str "├── " ++ str "a.go") (str "└── ") = false := by
  constructor
  · have hsort : sortEntries [.file (str "b.txt"), .file (str "a.go")]
        = [.file (str "a.go"), .file (str "b.txt")] := by rfl
    have hskipA : skipEntry [] [str ".go"] [] (.file (str "a.go")) = false := by rfl
    have hskipB : skipEntry [] [str ".go"] [] (.file (str "b.txt")) = true := by rfl
    rw [generateTree, hsort]
    rw [genEntries, genEntries, genEntries]
    rw [entryBlock, if_neg (by simp [hskipA])]
    rw [entryBlock, if_pos (by simp [hskipB])]
    rw [childLines]
    rfl
  · decide

/-- C3 corrected: the connector of a rendered sibling is decided by its
position in the full sorted sibling list (skipped entries included):
position `n-1` gets `└── ` with continuation `    `, every other
position `├── ` with continuation `│   `, propagated to the children.
The last rendered sibling therefore carries `└── ` exactly when no
skipped entry follows it in the sorted order. -/
theorem c3_connector_by_sorted_position (patterns fileTypes : List GoStr)
    (relDir pfx : GoStr) (es : List FsEntry) (j : Nat) (e : FsEntry)
    (hj : (sortEntries es)[j]? = some e)
    (hskip : skipEntry patterns fileTypes relDir e = false) :
    ∃ pre suf,
      genEntries patterns fileTypes relDir pfx (sortEntries es) 0 (sortEntries es).length
        = pre ++ (pfx ++ connector j (sortEntries es).length ++ entryLabel e)
            :: (childLines patterns fileTypes relDir pfx j (sortEntries es).length e ++ suf) := by
  have h := genEntries_rendered_entry patterns fileTypes relDir pfx
    (sortEntries es) 0 (sortEntries es).length j e hj hskip
  simpa using h

/-- C3 witness: the corrected statement at a concrete level. -/
theorem c3_witness :
    ∃ pre suf,
      genEntries [] [] [] [] (sortEntries [.file (str "a.go")]) 0
          (sortEntries [.file (str "a.go")]).length
        = pre ++ (([] : GoStr) ++ connector 0 (sortEntries [.file (str "a.go")]).length
              ++ entryLabel (.file (str "a.go")))
            :: (childLines [] [] [] [] 0 (sortEntries [.file (str "a.go")]).length
                (.file (str "a.go")) ++ suf) :=
  c3_connector_by_sorted_position [] [] [] [] [.file (str "a.go")] 0
    (.file (str "a.go")) (by rfl) (by rfl)

/-- The byte-wise string order is asymmetric. -/
theorem strLt_asymm : ∀ x y : GoStr, strLt x y = true → strLt y x = false := by
  intro x
  induction x with
  | nil =>
    intro y h
    cases y with
    | nil => simp [strLt] at h
    | cons b bs => simp [strLt]
  | cons a as ih =>
    intro y h
    cases y with
    | nil => simp [strLt] at h
    | cons b bs =>
      simp only [strLt, Bool.or_eq_true, Bool.and_eq_true, decide_eq_true_eq,
        beq_iff_eq] at h
      rcases h with hab | ⟨hab, hrec⟩
      · have h1 : ¬(b < a) := lt_asymm hab
        have h2 : (b == a) = false := by
          simpa using (ne_of_lt hab).symm
        simp [strLt, h1, h2]
      · subst hab
        simp [strLt, lt_irrefl, ih bs hrec]

/-- Non-strictness in the byte-wise string order is transitive. -/
theorem strLt_neg_trans : ∀ x y z : GoStr,
    strLt y x = false → strLt z y = false → strLt z x = false := by
  intro x
  induction x with
  | nil =>
    intro y z _ _
    cases z <;> simp [strLt]
  | cons a as ih =>
    intro y z h1 h2
    cases z with
    | nil =>
      cases y with
      | nil => simp [strLt] at h1
      | cons b bs => simp [strLt] at h2
    | cons c cs =>
      cases y with
      | nil => simp [strLt] at h1
      | cons b bs =>
        simp only [strLt, Bool.or_eq_false_iff, decide_eq_false_iff_not] at h1 h2 ⊢
        obtain ⟨hba, hba2⟩ := h1
        obtain ⟨hcb, hcb2⟩ := h2
        have hab : a ≤ b := not_lt.mp hba
        have hbc2 : b ≤ c := not_lt.mp hcb
        refine ⟨not_lt.mpr (le_trans hab hbc2), ?_⟩
        by_cases hca : c = a
        · have h5 : a = b := le_antisymm hab (le_trans hbc2 (le_of_eq hca))
          have hbs : strLt bs as = false := by
            have hba3 : (b == a) = true := by simp [h5.symm]
            simpa [hba3] using hba2
          have hcs : strLt cs bs = false := by
            have hcb' : (c == b) = true := by simp [hca, h5]
            simpa [hcb'] using hcb2
          simp [ih bs cs hbs hcs]
        · simp [hca]

/-- The sorted-order relation `entryR` is total. -/
instance : IsTotal FsEntry entryR := by
  constructor
  intro a b
  cases hab : entryLt a b
  · exact Or.inr hab
  · left
    unfold entryR
    unfold entryLt at hab ⊢
    cases ha : a.isDir <;> cases hb : b.isDir <;> simp_all
    · exact strLt_asymm _ _ hab
    · exact strLt_asymm _ _ hab

/-- The sorted-order relation `entryR` is transitive. -/
instance : IsTrans FsEntry entryR := by
  constructor
  intro a b c hab hbc
  unfold entryR at hab hbc ⊢
  unfold entryLt at hab hbc ⊢
  cases ha : a.isDir <;> cases hb : b.isDir <;> cases hc : c.isDir <;> simp_all
  · exact strLt_neg_trans _ _ _ hab hbc
  · exact strLt_neg_trans _ _ _ hab hbc

/-- C8: every rendered directory level is ordered with directories before
files and case-insensitively by name within each group, and the fixture
`{dirA, fileB.txt, FileA.txt}` renders as dirA/, FileA.txt, fileB.txt. -/
theorem c8_sort_order :
    (∀ es : List FsEntry, (sortEntries es).Pairwise (fun a b =>
        (b.isDir = false ∨ a.isDir = true) ∧
        (a.isDir ≠ b.isDir ∨ strLt (goToLower b.nameOf) (goToLower a.nameOf) = false))) ∧
    generateTree [] [] [.dir (str "dirA") [], .file (str "fileB.txt"), .file (str "FileA.txt")]
      = [str "├── " ++ (str "dirA" ++ ['/']), str "├── " ++ str "FileA.txt",
         str "└── " ++ str "fileB.txt"] := by
  constructor
  · intro es
    have hs : (sortEntries es).Pairwise entryR :=
      List.sorted_insertionSort entryR es
    refine hs.imp ?_
    intro a b h
    unfold entryR at h
    unfold entryLt at h
    cases ha : a.isDir <;> cases hb : b.isDir <;> simp_all
  · have hsort : sortEntries
        [.dir (str "dirA") [], .file (str "fileB.txt"), .file (str "FileA.txt")]
        = [.dir (str "dirA") [], .file (str "FileA.txt"), .file (str "fileB.txt")] := by rfl
    have hskip1 : skipEntry [] [] [] (.dir (str "dirA") []) = false := by rfl
    have hskip2 : skipEntry [] [] [] (.file (str "FileA.txt")) = false := by rfl
    have hskip3 : skipEntry [] [] [] (.file (str "fileB.txt")) = false := by rfl
    rw [generateTree, hsort]
    rw [genEntries, entryBlock, if_neg (by simp [hskip1]), childLines]
    rw [show sortEntries ([] : List FsEntry) = [] from rfl]
    rw [genEntries]
    rw [genEntries, entryBlock, if_neg (by simp [hskip2]), childLines]
    rw [genEntries, entryBlock, if_neg (by simp [hskip3]), childLines]
    rw [genEntries]
    rfl

/-- C4 (spec-modelled): with recursion disabled the walker emits only
files sitting directly in the root — every emitted path is the name of
a root-level file — and on the example tree `{file1.go, sub/file2.go}`
the output is exactly `[file1.go]`, so it contains `file1.go` and not
`sub/file2.go`. -/
theorem c4_norecurse_only_root :
    (∀ (patterns fileTypes : List GoStr) (es : List FsEntry) (p : GoStr),
      p ∈ walkFiles true patterns fileTypes [] es → FsEntry.file p ∈ es) ∧
    walkFiles true [] [] []
        [.file (str "file1.go"), .dir (str "sub") [.file (str "file2.go")]]
      = [str "file1.go"] := by
  constructor
  · intro patterns fileTypes es p hp
    induction es with
    | nil => rw [walkFiles] at hp; simp at hp
    | cons e rest ih =>
      cases e with
      | file nm =>
        rw [walkFiles] at hp
        rcases List.mem_append.mp hp with h | h
        · have hnm : p = nm := by
            split_ifs at h <;> simp_all [joinRel]
          rw [hnm]
          exact List.mem_cons_self _ _
        · exact List.mem_cons_of_mem _ (ih h)
      | dir nm cs =>
        rw [walkFiles] at hp
        simp only [if_true, List.nil_append] at hp
        exact List.mem_cons_of_mem _ (ih hp)
  · have h1 : isExcludedLatest (joinRel [] (str "file1.go")) [] = false := by rfl
    rw [walkFiles, walkFiles, walkFiles]
    rw [if_neg (by simp [h1])]
    rfl

/-- C4 witness: the general statement applied to the example tree. -/
theorem c4_witness :
    FsEntry.file (str "file1.go")
      ∈ [FsEntry.file (str "file1.go"),
         FsEntry.dir (str "sub") [FsEntry.file (str "file2.go")]] :=
  c4_norecurse_only_root.1 [] [] _ (str "file1.go")
    (by rw [c4_norecurse_only_root.2]; exact List.mem_singleton.mpr rfl)

end Git2LLM
